import Mathlib

/-!
Formal verification of the ledger core of the lmsmono repository:
the transaction-entry editor, the reconciliation component, and the
report aggregation (balance sheet, multi-period balance sheet).

Amounts are modelled as rationals (`ℚ`): the application performs
plain decimal arithmetic on currency values and every comparison in
the claims is a threshold test, so exact rational arithmetic is the
faithful shallow embedding.  JavaScript `number | null` fields become
`Option ℚ`; JS truthiness of a number (`null`, `0`, `NaN` falsy) is
modelled explicitly.  Concrete rationals are written with `mkRat` so
that closed facts evaluate inside the kernel; the reducibility reset
below only re-enables kernel evaluation of rational arithmetic and
has no effect on soundness.
-/

set_option allowUnsafeReducibility true
attribute [semireducible] Rat.add Rat.sub Rat.neg Rat.mul

namespace LedgerSpec

/-- The editor's balance tolerance: the literal `0.01` in
    `isBalanced` (transaction-entry.component.ts line 74). -/
def editorTolerance : ℚ := mkRat 1 100

/-- The engine tolerance named by the spec: `0.005`. -/
def engineEpsilon : ℚ := mkRat 5 1000

theorem editorTolerance_eq : editorTolerance = 1/100 := by
  norm_num [editorTolerance]

theorem engineEpsilon_eq : engineEpsilon = 5/1000 := by
  norm_num [engineEpsilon]

/-! ## Transaction entry component
    (frontend/src/app/finances/transactions/transaction-entry/transaction-entry.component.ts) -/

/-- One editor line: `interface TransactionLine`. -/
structure TransactionLine where
  id : Nat
  accountId : String
  debit : Option ℚ
  credit : Option ℚ
deriving DecidableEq

/-- A split as submitted to the backend: `interface SplitInput`
    (account_id plus optional debit/credit). -/
structure SplitInput where
  account_id : String
  debit : Option ℚ
  credit : Option ℚ
deriving DecidableEq

/-- JS truthiness of a `number | null` value: `null`, `0` (and `NaN`,
    folded into `none` here) are falsy. -/
def truthy (o : Option ℚ) : Bool :=
  match o with
  | none => false
  | some x => decide (x ≠ 0)

/-- `totalDebits`: `lines.reduce((sum, line) => sum + (line.debit || 0), 0)`. -/
def totalDebits (lines : List TransactionLine) : ℚ :=
  lines.foldl (fun sum line => sum + line.debit.getD 0) 0

/-- `totalCredits`: `lines.reduce((sum, line) => sum + (line.credit || 0), 0)`. -/
def totalCredits (lines : List TransactionLine) : ℚ :=
  lines.foldl (fun sum line => sum + line.credit.getD 0) 0

/-- `isBalanced`: `debits > 0 && Math.abs(debits - credits) < 0.01`. -/
def isBalanced (lines : List TransactionLine) : Bool :=
  decide (0 < totalDebits lines) &&
    decide (|totalDebits lines - totalCredits lines| < editorTolerance)

/-- `balanceDifference`: `Math.abs(totalDebits - totalCredits)`. -/
def balanceDifference (lines : List TransactionLine) : ℚ :=
  |totalDebits lines - totalCredits lines|

/-- The split list built by `onSave`:
    `lines.filter(l => l.accountId && (l.debit || l.credit)).map(...)`. -/
def submittedSplits (lines : List TransactionLine) : List SplitInput :=
  (lines.filter
      (fun l => decide (l.accountId ≠ "") && (truthy l.debit || truthy l.credit))).map
    (fun l => ⟨l.accountId, l.debit, l.credit⟩)

/-- `onSave`'s submission decision: the create/update request is issued
    exactly when `isBalanced()` holds (the `saving` flag is only a
    re-entrancy guard); otherwise the method returns and nothing is sent. -/
def onSaveRequest (lines : List TransactionLine) : Option (List SplitInput) :=
  if isBalanced lines then some (submittedSplits lines) else none

/-- Signed amount of a submitted split (debit positive, credit negative),
    as the spec reads `signed_amount`. -/
def signedAmount (s : SplitInput) : ℚ :=
  s.debit.getD 0 - s.credit.getD 0

/-- Signed amount of an editor line (debit positive, credit negative). -/
def lineSigned (l : TransactionLine) : ℚ :=
  l.debit.getD 0 - l.credit.getD 0

/-- The `updateLine` amount parser:
    `value === '' || value === null ? null : parseFloat(value) || null`.
    `none` is an empty/unparseable input; a parsed `0` collapses to `null`. -/
def parsedAmount (v : Option ℚ) : Option ℚ :=
  v.bind (fun x => if x = 0 then none else some x)

/-- Which field an `updateLine` call targets. -/
inductive LineField where
  | account (v : String)
  | debitField (v : Option ℚ)
  | creditField (v : Option ℚ)

/-- One line's update inside `updateLine`: entering a debit clears the
    credit and vice versa (`credit: debit ? null : line.credit`). -/
def applyField (l : TransactionLine) (f : LineField) : TransactionLine :=
  match f with
  | .account v => { l with accountId := v }
  | .debitField v =>
      let d := parsedAmount v
      { l with debit := d, credit := if d.isSome then none else l.credit }
  | .creditField v =>
      let c := parsedAmount v
      { l with credit := c, debit := if c.isSome then none else l.debit }

/-- `updateLine(lineId, field, value)`: map over the lines, touching only
    the line with the given id. -/
def updateLine (lines : List TransactionLine) (lineId : Nat) (f : LineField) :
    List TransactionLine :=
  lines.map (fun l => if l.id = lineId then applyField l f else l)

/-- The editor's initial two empty lines. -/
def initialLines : List TransactionLine :=
  [⟨1, "", none, none⟩, ⟨2, "", none, none⟩]

/-- A line never carries both a debit and a credit. -/
def mutExcl (l : TransactionLine) : Prop :=
  l.debit = none ∨ l.credit = none

instance (l : TransactionLine) : Decidable (mutExcl l) := by
  unfold mutExcl; infer_instance

/-! ### Shared list-arithmetic lemmas -/

theorem foldl_add_eq_sum {α : Type} (f : α → ℚ) :
    ∀ (l : List α) (a : ℚ), l.foldl (fun s x => s + f x) a = a + (l.map f).sum := by
  intro l
  induction l with
  | nil => intro a; simp
  | cons x xs ih =>
      intro a
      simp only [List.foldl_cons, List.map_cons, List.sum_cons, ih]
      ring

theorem sum_map_sub {α : Type} (f g : α → ℚ) (l : List α) :
    (l.map (fun x => f x - g x)).sum = (l.map f).sum - (l.map g).sum := by
  induction l with
  | nil => simp
  | cons x xs ih => simp [ih]; ring

theorem totalDebits_eq (lines : List TransactionLine) :
    totalDebits lines = (lines.map (fun l => l.debit.getD 0)).sum := by
  simpa [totalDebits] using foldl_add_eq_sum (fun l : TransactionLine => l.debit.getD 0) lines 0

theorem totalCredits_eq (lines : List TransactionLine) :
    totalCredits lines = (lines.map (fun l => l.credit.getD 0)).sum := by
  simpa [totalCredits] using foldl_add_eq_sum (fun l : TransactionLine => l.credit.getD 0) lines 0

theorem lineSigned_sum (lines : List TransactionLine) :
    (lines.map lineSigned).sum = totalDebits lines - totalCredits lines := by
  rw [totalDebits_eq, totalCredits_eq]
  simpa [lineSigned] using
    sum_map_sub (fun l : TransactionLine => l.debit.getD 0)
      (fun l : TransactionLine => l.credit.getD 0) lines

/-! ### Claim C1 -/

/-- Concrete editor lines whose imbalance is 0.007: above the spec's
    0.005 but below the code's 0.01. -/
def c1Lines : List TransactionLine :=
  [⟨1, "checking", some (100 + mkRat 7 1000), none⟩,
   ⟨2, "sales", none, some 100⟩]

/-- Claim C1 as stated is false: `onSave` submits a transaction whose
    splits sum to 0.007, which is not below 0.005 — the gate in the code
    is `Math.abs(debits - credits) < 0.01`, not `< 0.005`. -/
theorem C1_gate_accepts_above_spec_epsilon :
    onSaveRequest c1Lines =
      some [⟨"checking", some (100 + mkRat 7 1000), none⟩,
            ⟨"sales", none, some 100⟩] ∧
    ¬ |((submittedSplits c1Lines).map signedAmount).sum| < engineEpsilon := by
  decide

/-- Claim C1 (amended): a create/update submission is issued only when
    the editor's total debits are positive and the absolute sum of the
    lines' signed amounts (total debits minus total credits) is below
    0.01 — the editor's tolerance, not the spec's 0.005. -/
theorem C1_balance_gate_tolerance (lines : List TransactionLine)
    (splits : List SplitInput) (h : onSaveRequest lines = some splits) :
    0 < totalDebits lines ∧ |(lines.map lineSigned).sum| < editorTolerance := by
  unfold onSaveRequest at h
  by_cases hb : isBalanced lines = true
  · have := hb
    unfold isBalanced at this
    rw [Bool.and_eq_true, decide_eq_true_eq, decide_eq_true_eq] at this
    exact ⟨this.1, by rw [lineSigned_sum]; exact this.2⟩
  · rw [if_neg (by simpa using hb)] at h
    exact absurd h (by simp)

/-- Witness for C1: the balanced example from the spec
    (`[Checking: +100.00, Sales Revenue: -100.00]`). -/
theorem C1_balance_gate_tolerance_witness :
    0 < totalDebits [⟨1, "checking", some 100, none⟩, ⟨2, "sales", none, some 100⟩] ∧
    |(([⟨1, "checking", some 100, none⟩,
        ⟨2, "sales", none, some 100⟩] : List TransactionLine).map lineSigned).sum| <
      editorTolerance :=
  C1_balance_gate_tolerance
    [⟨1, "checking", some 100, none⟩, ⟨2, "sales", none, some 100⟩]
    [⟨"checking", some 100, none⟩, ⟨"sales", none, some 100⟩] (by decide)

/-! ### Claim C6 -/

/-- Lines containing a zero-amount split (third line). -/
def c6Lines : List TransactionLine :=
  [⟨1, "checking", some 100, none⟩,
   ⟨2, "sales", none, some 100⟩,
   ⟨3, "petty", some 0, none⟩]

/-- A single-line submission below the 0.01 tolerance. -/
def c6Single : List TransactionLine :=
  [⟨1, "checking", some (mkRat 5 1000), none⟩, ⟨2, "", none, none⟩]

/-- Claim C6 as stated is false: a submission containing a zero-amount
    split is not rejected — `onSave` silently drops the offending line
    and submits the remainder; and a submission with a single effective
    split below the tolerance is likewise accepted, not rejected. -/
theorem C6_zero_split_dropped_not_rejected :
    (∃ l, l ∈ c6Lines ∧ l.debit = some 0) ∧
    onSaveRequest c6Lines =
      some [⟨"checking", some 100, none⟩, ⟨"sales", none, some 100⟩] ∧
    onSaveRequest c6Single = some [⟨"checking", some (mkRat 5 1000), none⟩] := by
  refine ⟨⟨⟨3, "petty", some 0, none⟩, by decide, by decide⟩, by decide, by decide⟩

/-- Claim C6 (amended): the editor never rejects a submission for a
    zero-amount or account-less line; instead such lines are silently
    excluded before submission, so every split actually submitted names
    an account and carries a nonzero debit or credit, and a submission
    with fewer than two surviving splits can still be accepted. -/
theorem C6_submitted_splits_nonzero (lines : List TransactionLine)
    (splits : List SplitInput) (h : onSaveRequest lines = some splits) :
    ∀ s ∈ splits, s.account_id ≠ "" ∧
      ((∃ d, s.debit = some d ∧ d ≠ 0) ∨ (∃ c, s.credit = some c ∧ c ≠ 0)) := by
  have hs : splits = submittedSplits lines := by
    unfold onSaveRequest at h
    by_cases hb : isBalanced lines = true
    · rw [if_pos hb] at h; exact (Option.some_inj.mp h).symm
    · rw [if_neg (by simpa using hb)] at h; exact absurd h (by simp)
  subst hs
  intro s hmem
  unfold submittedSplits at hmem
  rcases List.mem_map.mp hmem with ⟨l, hl, rfl⟩
  have hfil := List.of_mem_filter hl
  rw [Bool.and_eq_true, decide_eq_true_eq] at hfil
  refine ⟨hfil.1, ?_⟩
  rcases Bool.or_eq_true _ _ |>.mp hfil.2 with hd | hc
  · left
    unfold truthy at hd
    cases hdeb : l.debit with
    | none => rw [hdeb] at hd; exact absurd hd (by simp)
    | some d =>
        rw [hdeb] at hd
        exact ⟨d, rfl, by simpa using hd⟩
  · right
    unfold truthy at hc
    cases hcred : l.credit with
    | none => rw [hcred] at hc; exact absurd hc (by simp)
    | some c =>
        rw [hcred] at hc
        exact ⟨c, rfl, by simpa using hc⟩

/-- Witness for C6 (amended), evaluated on the first submitted split of
    a concrete accepted submission. -/
theorem C6_submitted_splits_nonzero_witness :
    (⟨"checking", some 100, none⟩ : SplitInput).account_id ≠ "" ∧
    ((∃ d, (⟨"checking", some 100, none⟩ : SplitInput).debit = some d ∧ d ≠ 0) ∨
     (∃ c, (⟨"checking", some 100, none⟩ : SplitInput).credit = some c ∧ c ≠ 0)) :=
  C6_submitted_splits_nonzero
    [⟨1, "checking", some 100, none⟩, ⟨2, "sales", none, some 100⟩]
    [⟨"checking", some 100, none⟩, ⟨"sales", none, some 100⟩] (by decide)
    ⟨"checking", some 100, none⟩ (by decide)

/-! ### Claim C9 -/

/-- Claim C9: `updateLine` preserves debit/credit mutual exclusion —
    entering a debit clears the credit and vice versa — and the editor's
    initial lines satisfy it, so no line ever carries both a non-null
    debit and a non-null credit. -/
theorem C9_debit_credit_mutual_exclusion (lines : List TransactionLine)
    (lineId : Nat) (f : LineField) (h : ∀ l ∈ lines, mutExcl l) :
    (∀ l ∈ updateLine lines lineId f, mutExcl l) ∧ ∀ l ∈ initialLines, mutExcl l := by
  constructor
  · intro l hl
    unfold updateLine at hl
    rcases List.mem_map.mp hl with ⟨l0, hl0, rfl⟩
    by_cases hid : l0.id = lineId
    · rw [if_pos hid]
      cases f with
      | account v => exact h l0 hl0
      | debitField v =>
          unfold applyField mutExcl
          cases hv : parsedAmount v with
          | none => left; simp [hv]
          | some x => right; simp [hv]
      | creditField v =>
          unfold applyField mutExcl
          cases hv : parsedAmount v with
          | none => right; simp [hv]
          | some x => left; simp [hv]
    · rw [if_neg hid]
      exact h l0 hl0
  · intro l hl
    fin_cases hl <;> exact Or.inl rfl

/-- Witness for C9: updating the credit of line 1 in a well-formed pair
    of lines keeps mutual exclusion. -/
theorem C9_debit_credit_mutual_exclusion_witness :
    (∀ l ∈ updateLine [⟨1, "checking", some 5, none⟩, ⟨2, "sales", none, some 5⟩] 1
        (.creditField (some 3)), mutExcl l) ∧
    ∀ l ∈ initialLines, mutExcl l :=
  C9_debit_credit_mutual_exclusion
    [⟨1, "checking", some 5, none⟩, ⟨2, "sales", none, some 5⟩] 1
    (.creditField (some 3)) (by decide)

/-! ## Reconciliation component
    (frontend/src/app/finances/reconcile/reconcile.component.ts)

    The component state is the signals of `ReconcileComponent`:
    the fetched `reconcileData`, the optimistic `pendingOverrides`
    record (modelled as a function `String → Option Bool`, matching the
    JS object `split_id → is_pending`), and the UI-only statement
    inputs.  `statementBalance` is stored here as the already-parsed
    `parseFloat` result (`none` for a non-numeric string). -/

/-- `interface ReconcileSplit` (reconcile.model.ts). -/
structure ReconcileSplit where
  split_id : String
  trandate : String
  tranref : Option String
  payee : Option String
  memo : Option String
  debit : Option ℚ
  credit : Option ℚ
  is_pending : Bool
deriving DecidableEq

/-- `interface ReconcileData` (reconcile.model.ts). -/
structure ReconcileData where
  account_id : String
  acc_name : String
  rec_note : Option String
  prior_reconciled_balance : ℚ
  splits : List ReconcileSplit
deriving DecidableEq

/-- `type FilterMode = 'all' | 'uncleared' | 'pending'`. -/
inductive FilterMode where
  | all
  | uncleared
  | pending
deriving DecidableEq

/-- The signal state of `ReconcileComponent`. -/
structure ReconcileState where
  accountId : String
  reconcileData : Option ReconcileData
  pendingOverrides : String → Option Bool
  statementDate : String
  statementBalance : Option ℚ
  filterMode : FilterMode

/-- JS object spread update `{ ...overrides, [splitId]: b }`. -/
def setOverride (ov : String → Option Bool) (k : String) (b : Bool) :
    String → Option Bool :=
  fun x => if x = k then some b else ov x

/-- One split with the optimistic override applied:
    `{ ...s, is_pending: s.split_id in overrides ? overrides[s.split_id] : s.is_pending }`. -/
def applyOverride (ov : String → Option Bool) (s : ReconcileSplit) : ReconcileSplit :=
  { s with is_pending := (ov s.split_id).getD s.is_pending }

/-- The `splits` computed: server splits with overrides applied
    (empty list while no data is loaded). -/
def splits (st : ReconcileState) : List ReconcileSplit :=
  match st.reconcileData with
  | none => []
  | some d => d.splits.map (applyOverride st.pendingOverrides)

/-- `priorBalance`: `reconcileData()?.prior_reconciled_balance ?? 0`. -/
def priorBalance (st : ReconcileState) : ℚ :=
  match st.reconcileData with
  | none => 0
  | some d => d.prior_reconciled_balance

/-- The summand in `clearedBalance`: `s.debit ?? -(s.credit ?? 0)`. -/
def codeSigned (s : ReconcileSplit) : ℚ :=
  s.debit.getD (-(s.credit.getD 0))

/-- Signed amount the way the spec words it: debit positive, credit
    negative. -/
def specSigned (s : ReconcileSplit) : ℚ :=
  s.debit.getD 0 - s.credit.getD 0

/-- `clearedBalance`: prior balance plus the reduce over pending splits. -/
def clearedBalance (st : ReconcileState) : ℚ :=
  priorBalance st +
    ((splits st).filter (fun s => s.is_pending)).foldl
      (fun total s => total + codeSigned s) 0

/-- `difference`: `null` without a statement balance, else
    `clearedBalance - statementBalance`. -/
def difference (st : ReconcileState) : Option ℚ :=
  st.statementBalance.map (fun sb => clearedBalance st - sb)

/-- `isDifferenceZero`: `d !== null && Math.abs(d) < 0.005`. -/
def isDifferenceZero (st : ReconcileState) : Bool :=
  match difference st with
  | none => false
  | some d => decide (|d| < engineEpsilon)

/-- `pendingCount`: number of splits currently shown pending. -/
def pendingCount (st : ReconcileState) : Nat :=
  ((splits st).filter (fun s => s.is_pending)).length

/-- `canFinalize`: `isDifferenceZero() && pendingCount() > 0`. -/
def canFinalize (st : ReconcileState) : Bool :=
  isDifferenceZero st && decide (0 < pendingCount st)

/-- `toggle(splitId)`, optimistic part: look the split up in the
    displayed list; if absent do nothing, else record the flipped flag
    in the overrides.  (The HTTP success handler changes nothing.) -/
def toggle (st : ReconcileState) (splitId : String) : ReconcileState :=
  match (splits st).find? (fun s => s.split_id == splitId) with
  | none => st
  | some split =>
      { st with pendingOverrides :=
          setOverride st.pendingOverrides splitId (!split.is_pending) }

/-- `toggle(splitId)` whose HTTP request fails: the optimistic update
    followed by the error handler's rollback
    `{ ...overrides, [splitId]: split.is_pending }`, where `split` is
    the displayed split captured before the toggle. -/
def toggleError (st : ReconcileState) (splitId : String) : ReconcileState :=
  match (splits st).find? (fun s => s.split_id == splitId) with
  | none => st
  | some split =>
      { st with pendingOverrides :=
          (setOverride (setOverride st.pendingOverrides splitId (!split.is_pending))
            splitId split.is_pending) }

/-- The displayed pending flag of one split (the first displayed split
    with the given id). -/
def displayedPending (st : ReconcileState) (splitId : String) : Option Bool :=
  ((splits st).find? (fun s => s.split_id == splitId)).map (fun s => s.is_pending)

/-- The body of `POST /api/reconcile/{accountId}/finalize` is the empty
    object `{}`: the request is determined by the account id alone. -/
structure FinalizeRequest where
  accountId : String
deriving DecidableEq

/-- `finalize()`: no request when the account id is missing, else the
    parameterless finalize POST. -/
def finalizeRequest (st : ReconcileState) : Option FinalizeRequest :=
  if st.accountId = "" then none else some ⟨st.accountId⟩

/-- `finalize()`'s success handler: clear overrides and statement
    inputs, reset the filter (the re-fetch of server data is outside
    this state). -/
def finalizeSuccess (st : ReconcileState) : ReconcileState :=
  if st.accountId = "" then st
  else
    { st with pendingOverrides := fun _ => none, statementBalance := none,
              statementDate := "", filterMode := .all }

/-- Every per-split field except the `is_pending` flag. -/
def frameFields (s : ReconcileSplit) :
    String × String × Option String × Option String × Option String ×
      Option ℚ × Option ℚ :=
  (s.split_id, s.trandate, s.tranref, s.payee, s.memo, s.debit, s.credit)

theorem applyOverride_split_id (ov : String → Option Bool) (s : ReconcileSplit) :
    (applyOverride ov s).split_id = s.split_id := rfl

theorem applyOverride_is_pending (ov : String → Option Bool) (s : ReconcileSplit) :
    (applyOverride ov s).is_pending = (ov s.split_id).getD s.is_pending := rfl

theorem setOverride_self (ov : String → Option Bool) (k : String) (b : Bool) :
    setOverride ov k b k = some b := by simp [setOverride]

theorem setOverride_other (ov : String → Option Bool) (k x : String) (b : Bool)
    (h : x ≠ k) : setOverride ov k b x = ov x := by simp [setOverride, h]

theorem applyOverride_congr (ov ov' : String → Option Bool) (s : ReconcileSplit)
    (h : (ov' s.split_id).getD s.is_pending = (ov s.split_id).getD s.is_pending) :
    applyOverride ov' s = applyOverride ov s := by
  unfold applyOverride
  rw [h]

/-- `find?` on the displayed list mirrors `find?` on the raw server
    splits, because overrides do not change ids. -/
theorem find?_applyOverride (u : List ReconcileSplit) (ov : String → Option Bool)
    (splitId : String) :
    (u.map (applyOverride ov)).find? (fun s => s.split_id == splitId) =
      (u.find? (fun s => s.split_id == splitId)).map (applyOverride ov) := by
  rw [List.find?_map]
  rfl

/-! ### Claim C5 -/

/-- Claim C5: toggling the same split twice in succession returns its
    displayed `is_pending` flag to its original value. -/
theorem C5_toggle_twice_roundtrip (st : ReconcileState) (splitId : String) :
    displayedPending (toggle (toggle st splitId) splitId) splitId =
      displayedPending st splitId := by
  cases hdata : st.reconcileData with
  | none =>
      have hs : splits st = [] := by simp [splits, hdata]
      simp [toggle, hs]
  | some d =>
      cases hbase : d.splits.find? (fun s => s.split_id == splitId) with
      | none =>
          have h1 : (splits st).find? (fun s => s.split_id == splitId) = none := by
            simp only [splits, hdata, find?_applyOverride, hbase, Option.map_none']
          simp [toggle, h1]
      | some s0 =>
          have hid : s0.split_id = splitId := by simpa using List.find?_some hbase
          have h1 : (splits st).find? (fun s => s.split_id == splitId) =
              some (applyOverride st.pendingOverrides s0) := by
            simp only [splits, hdata, find?_applyOverride, hbase, Option.map_some']
          have hpend1 : (applyOverride st.pendingOverrides s0).is_pending =
              (st.pendingOverrides splitId).getD s0.is_pending := by
            rw [applyOverride_is_pending, hid]
          have htog1 : toggle st splitId =
              { st with pendingOverrides :=
                  (setOverride st.pendingOverrides splitId
                    (!(st.pendingOverrides splitId).getD s0.is_pending)) } := by
            simp only [toggle, h1, hpend1]
          have h2 : (splits (toggle st splitId)).find? (fun s => s.split_id == splitId) =
              some (applyOverride
                (setOverride st.pendingOverrides splitId
                  (!(st.pendingOverrides splitId).getD s0.is_pending)) s0) := by
            rw [htog1]
            simp only [splits, hdata, find?_applyOverride, hbase, Option.map_some']
          have hpend2 : (applyOverride
              (setOverride st.pendingOverrides splitId
                (!(st.pendingOverrides splitId).getD s0.is_pending)) s0).is_pending =
              !(st.pendingOverrides splitId).getD s0.is_pending := by
            rw [applyOverride_is_pending, hid, setOverride_self, Option.getD_some]
          have htog2 : toggle (toggle st splitId) splitId =
              { st with pendingOverrides :=
                  (setOverride
                    (setOverride st.pendingOverrides splitId
                      (!(st.pendingOverrides splitId).getD s0.is_pending))
                    splitId ((st.pendingOverrides splitId).getD s0.is_pending)) } := by
            rw [htog1]
            simp only [toggle]
            rw [show splits { st with pendingOverrides :=
                  (setOverride st.pendingOverrides splitId
                    (!(st.pendingOverrides splitId).getD s0.is_pending)) } =
                splits (toggle st splitId) from by rw [htog1]]
            rw [h2]
            simp only [hpend2, Bool.not_not]
          rw [htog2]
          unfold displayedPending
          rw [h1]
          have h3 : (splits { st with pendingOverrides :=
              (setOverride
                (setOverride st.pendingOverrides splitId
                  (!(st.pendingOverrides splitId).getD s0.is_pending))
                splitId ((st.pendingOverrides splitId).getD s0.is_pending)) }).find?
                  (fun s => s.split_id == splitId) =
              some (applyOverride
                (setOverride
                  (setOverride st.pendingOverrides splitId
                    (!(st.pendingOverrides splitId).getD s0.is_pending))
                  splitId ((st.pendingOverrides splitId).getD s0.is_pending)) s0) := by
            simp only [splits, hdata, find?_applyOverride, hbase, Option.map_some']
          rw [h3]
          simp only [Option.map_some']
          rw [applyOverride_is_pending, hid, setOverride_self, Option.getD_some, hpend1]

/-! ### Claim C10 -/

/-- Claim C10: when a toggle's HTTP request fails, the error handler
    rolls the override back to the displayed value captured before the
    toggle, so the displayed splits — and with them every derived
    session value — are unchanged (split ids are unique in a session). -/
theorem C10_toggle_error_rollback (st : ReconcileState) (splitId : String)
    (hnd : ((splits st).map (fun s => s.split_id)).Nodup) :
    splits (toggleError st splitId) = splits st := by
  cases hdata : st.reconcileData with
  | none =>
      have hs : splits st = [] := by simp [splits, hdata]
      have h1 : (splits st).find? (fun s => s.split_id == splitId) = none := by
        simp [hs]
      simp [toggleError, h1]
  | some d =>
      cases hbase : d.splits.find? (fun s => s.split_id == splitId) with
      | none =>
          have h1 : (splits st).find? (fun s => s.split_id == splitId) = none := by
            simp only [splits, hdata, find?_applyOverride, hbase, Option.map_none']
          simp [toggleError, h1]
      | some s0 =>
          have hid : s0.split_id = splitId := by simpa using List.find?_some hbase
          have hmem0 : s0 ∈ d.splits := List.mem_of_find?_eq_some hbase
          have h1 : (splits st).find? (fun s => s.split_id == splitId) =
              some (applyOverride st.pendingOverrides s0) := by
            simp only [splits, hdata, find?_applyOverride, hbase, Option.map_some']
          have hndu : (d.splits.map (fun s => s.split_id)).Nodup := by
            have he : (splits st).map (fun s => s.split_id) =
                d.splits.map (fun s => s.split_id) := by
              simp only [splits, hdata, List.map_map]
              rfl
            rwa [he] at hnd
          simp only [toggleError, h1]
          simp only [splits, hdata]
          apply List.map_congr_left
          intro x hx
          by_cases hxid : x.split_id = splitId
          · have hxe : x = s0 :=
              List.inj_on_of_nodup_map hndu hx hmem0 (by rw [hxid, hid])
            subst hxe
            apply applyOverride_congr
            rw [hxid, setOverride_self, Option.getD_some,
              applyOverride_is_pending, hxid]
          · apply applyOverride_congr
            rw [setOverride_other _ _ _ _ hxid, setOverride_other _ _ _ _ hxid]

/-- Witness for C10: a two-split session with an active override; the
    failed toggle leaves the displayed splits unchanged. -/
theorem C10_toggle_error_rollback_witness :
    splits (toggleError
      { accountId := "a1"
        reconcileData := some
          { account_id := "a1", acc_name := "Checking", rec_note := none
            prior_reconciled_balance := 500
            splits := [⟨"s1", "2026-01-05", none, none, none, some 100, none, false⟩,
                       ⟨"s2", "2026-01-09", none, none, none, none, some 40, true⟩] }
        pendingOverrides := setOverride (fun _ => none) "s1" true
        statementDate := ""
        statementBalance := none
        filterMode := .all } "s1") =
    splits
      { accountId := "a1"
        reconcileData := some
          { account_id := "a1", acc_name := "Checking", rec_note := none
            prior_reconciled_balance := 500
            splits := [⟨"s1", "2026-01-05", none, none, none, some 100, none, false⟩,
                       ⟨"s2", "2026-01-09", none, none, none, none, some 40, true⟩] }
        pendingOverrides := setOverride (fun _ => none) "s1" true
        statementDate := ""
        statementBalance := none
        filterMode := .all } :=
  C10_toggle_error_rollback _ "s1" (by decide)

/-! ### Claim C8 -/

theorem splits_map_frameFields (u : List ReconcileSplit) (ov : String → Option Bool) :
    (u.map (applyOverride ov)).map frameFields = u.map frameFields := by
  rw [List.map_map]
  rfl

/-- Claim C8: reconciliation operations — an optimistic toggle, a failed
    toggle with its rollback, and finalize's local success handler — only
    ever change the `is_pending` flag: every other per-split field
    (ids, dates, payee/memo, and in particular the debit/credit amounts)
    is untouched.  (`reconciled_at` is stamped server-side and does not
    appear in the client's split model at all.) -/
theorem C8_reconcile_frame (st : ReconcileState) (splitId : String) :
    (splits (toggle st splitId)).map frameFields = (splits st).map frameFields ∧
    (splits (toggleError st splitId)).map frameFields = (splits st).map frameFields ∧
    (splits (finalizeSuccess st)).map frameFields = (splits st).map frameFields := by
  have key : ∀ st' : ReconcileState, st'.reconcileData = st.reconcileData →
      (splits st').map frameFields = (splits st).map frameFields := by
    intro st' h
    cases hdata : st.reconcileData with
    | none => simp [splits, h, hdata]
    | some d => simp only [splits, h, hdata, splits_map_frameFields]
  refine ⟨?_, ?_, ?_⟩
  · cases hm : (splits st).find? (fun s => s.split_id == splitId) with
    | none => simp [toggle, hm]
    | some s => simp only [toggle, hm]; exact key _ rfl
  · cases hm : (splits st).find? (fun s => s.split_id == splitId) with
    | none => simp [toggleError, hm]
    | some s => simp only [toggleError, hm]; exact key _ rfl
  · unfold finalizeSuccess
    by_cases hacc : st.accountId = ""
    · rw [if_pos hacc]
    · rw [if_neg hacc]; exact key _ rfl

/-! ### Claim C4 -/

/-- Claim C4: the cleared balance is the prior reconciled balance plus
    the sum of the signed amounts (debit positive, credit negative) of
    the splits currently shown pending, and — given a parseable
    statement balance — the session counts as balanced exactly when the
    cleared balance is within 0.005 of it. -/
theorem C4_cleared_balance_and_tolerance (st : ReconcileState) (sb : ℚ)
    (hsb : st.statementBalance = some sb)
    (hx : ∀ s ∈ splits st, s.debit = none ∨ s.credit = none) :
    clearedBalance st =
      priorBalance st +
        (((splits st).filter (fun s => s.is_pending)).map specSigned).sum ∧
    (isDifferenceZero st = true ↔ |clearedBalance st - sb| < engineEpsilon) := by
  constructor
  · unfold clearedBalance
    rw [foldl_add_eq_sum codeSigned _ 0, zero_add]
    congr 1
    apply congrArg List.sum
    apply List.map_congr_left
    intro s hs
    have hmem : s ∈ splits st := List.mem_of_mem_filter hs
    rcases hx s hmem with hdn | hcn
    · unfold codeSigned specSigned
      rw [hdn]
      simp
    · unfold codeSigned specSigned
      rw [hcn]
      cases s.debit <;> simp
  · unfold isDifferenceZero difference
    rw [hsb]
    simp only [Option.map_some']
    exact decide_eq_true_iff

/-- The session of spec example scenario 3: prior balance 500, three
    pending splits summing 150, statement balance 650. -/
def c4State : ReconcileState :=
  { accountId := "a1"
    reconcileData := some
      { account_id := "a1", acc_name := "Checking", rec_note := none
        prior_reconciled_balance := 500
        splits :=
          [⟨"s1", "2026-01-02", none, none, none, some 100, none, true⟩,
           ⟨"s2", "2026-01-03", none, none, none, some 70, none, true⟩,
           ⟨"s3", "2026-01-04", none, none, none, none, some 20, true⟩,
           ⟨"s4", "2026-01-05", none, none, none, some 999, none, false⟩] }
    pendingOverrides := fun _ => none
    statementDate := "2026-01-31"
    statementBalance := some 650
    filterMode := .all }

/-- Witness for C4, on spec example scenario 3. -/
theorem C4_cleared_balance_and_tolerance_witness :
    clearedBalance c4State =
      priorBalance c4State +
        (((splits c4State).filter (fun s => s.is_pending)).map specSigned).sum ∧
    (isDifferenceZero c4State = true ↔
      |clearedBalance c4State - 650| < engineEpsilon) :=
  C4_cleared_balance_and_tolerance c4State 650 rfl (by decide)

/-! ### Claim C3 -/

/-- A session whose pending set does not balance against the statement
    target: prior 500, one pending split of 100, statement balance 999. -/
def stC3 : ReconcileState :=
  { accountId := "a1"
    reconcileData := some
      { account_id := "a1", acc_name := "Checking", rec_note := none
        prior_reconciled_balance := 500
        splits := [⟨"s1", "2026-01-05", none, none, none, some 100, none, false⟩] }
    pendingOverrides := setOverride (fun _ => none) "s1" true
    statementDate := "2026-01-31"
    statementBalance := some 999
    filterMode := .all }

/-- Claim C3 as stated is false: with an unbalanced pending set
    (`canFinalize` is false), `finalize()` still issues its request —
    the call is not rejected — and the request body is empty, carrying
    no statement target at all (it is unchanged when the statement
    balance is replaced by the value that would balance), so the engine
    is never given the data it would need to re-verify; the success
    handler then mutates the displayed session. -/
theorem C3_finalize_no_reverification :
    canFinalize stC3 = false ∧
    finalizeRequest stC3 = some ⟨"a1"⟩ ∧
    finalizeRequest { stC3 with statementBalance := some 600 } = finalizeRequest stC3 ∧
    splits (finalizeSuccess stC3) ≠ splits stC3 := by
  refine ⟨by decide, by decide, rfl, by decide⟩

/-- Claim C3 (amended): no re-verification happens on finalize — the
    finalize request depends only on the account id, never on the
    statement balance or the pending overrides; the sole balance check
    is the client-side `canFinalize` guard used to enable the button,
    which `finalize()` itself does not consult. -/
theorem C3_finalize_request_independent (st : ReconcileState) (sb : Option ℚ)
    (ov : String → Option Bool) :
    finalizeRequest { st with statementBalance := sb, pendingOverrides := ov } =
      finalizeRequest st := rfl

/-! ## Report engine

    The Angular components under src/ only render rows served by
    `/api/reports/...`; the backend queries themselves are not part of
    the source tree.  The row computation is therefore modelled from
    the spec (§4.3), while the grouping and totalling below
    (`groupRows`, `totalAssets`, `totalLiabilitiesEquity`) are embedded
    from the balance-sheet component source. -/

/-- Account type reference data (`balance_sheet`/`debit` flags as in
    the `hacc.accounttypes` schema and the `AccountType` interface). -/
structure AccountType where
  id : String
  atype_name : String
  balance_sheet : Bool
  debit : Bool
deriving DecidableEq

/-- Account reference data. -/
structure Account where
  id : String
  acc_name : String
  type_id : String
deriving DecidableEq

/-- One ledger split: signed amount, debit positive / credit negative. -/
structure TxnSplit where
  account_id : String
  amount : ℚ
deriving DecidableEq

/-- One ledger transaction; dates are coded as integers (day numbers),
    which preserves the order structure the reports rely on. -/
structure Txn where
  trandate : Int
  splits : List TxnSplit
deriving DecidableEq

/-- Sum of one transaction's split amounts against one account. -/
def txnAccountSum (t : Txn) (aid : String) : ℚ :=
  ((t.splits.filter (fun s => s.account_id == aid)).map (fun s => s.amount)).sum

/-- Modelled from the spec: the backend report queries are not under
    src/ (only their Angular callers are); per §4.3 the raw balance of
    an account as of a date is the sum of signed amounts of all its
    splits dated on or before that date. -/
def rawBalance (ledger : List Txn) (aid : String) (d : Int) : ℚ :=
  (ledger.map (fun t => if t.trandate ≤ d then txnAccountSum t aid else 0)).sum

/-- The account's type: `find?` by type id. -/
def typeOf (types : List AccountType) (a : Account) : Option AccountType :=
  types.find? (fun t => t.id == a.type_id)

/-- Whether an account belongs to a balance-sheet account type. -/
def isBS (types : List AccountType) (a : Account) : Bool :=
  match typeOf types a with
  | some t => t.balance_sheet
  | none => false

/-- One row of `/api/reports/current-balance-accounts`
    (`interface BalanceSheetRow`). -/
structure BalanceSheetRow where
  atype_id : String
  atype_name : String
  debit_account : Bool
  id : String
  acc_name : String
  balance : Option ℚ
deriving DecidableEq

/-- Modelled from the spec: the balance-sheet endpoint returns one row
    per account of a balance-sheet type, with the balance in natural
    terms — the raw signed sum multiplied by `+1` for debit-normal and
    `-1` for credit-normal types (§4.3 display convention). -/
def rowOf (types : List AccountType) (ledger : List Txn) (d : Int)
    (a : Account) : Option BalanceSheetRow :=
  (typeOf types a).bind (fun t =>
    if t.balance_sheet then
      some { atype_id := t.id, atype_name := t.atype_name,
             debit_account := t.debit, id := a.id, acc_name := a.acc_name,
             balance := some ((if t.debit then 1 else -1) * rawBalance ledger a.id d) }
    else none)

/-- The full row list: one row per balance-sheet account. -/
def balanceSheetRows (types : List AccountType) (accounts : List Account)
    (ledger : List Txn) (d : Int) : List BalanceSheetRow :=
  accounts.filterMap (rowOf types ledger d)

/-- One group of the balance-sheet component
    (`interface AccountTypeGroup`). -/
structure AccountTypeGroup where
  atype_id : String
  atype_name : String
  debit_account : Bool
  accounts : List BalanceSheetRow
  subtotal : ℚ
deriving DecidableEq

/-- `groupRows`'s per-row step on the insertion-ordered `Map`: the
    first (only) group carrying the row's `atype_id` is updated in
    place, otherwise a fresh group is appended at the end. -/
def insertRow : List AccountTypeGroup → BalanceSheetRow → List AccountTypeGroup
  | [], r =>
      [{ atype_id := r.atype_id, atype_name := r.atype_name,
         debit_account := r.debit_account, accounts := [r],
         subtotal := 0 + r.balance.getD 0 }]
  | g :: gs, r =>
      if g.atype_id == r.atype_id then
        { g with accounts := g.accounts ++ [r],
                 subtotal := g.subtotal + r.balance.getD 0 } :: gs
      else g :: insertRow gs r

/-- `BalanceSheetComponent.groupRows`. -/
def groupRows (rows : List BalanceSheetRow) : List AccountTypeGroup :=
  rows.foldl insertRow []

/-- `totalAssets`: sum of subtotals of debit-normal groups. -/
def totalAssets (groups : List AccountTypeGroup) : ℚ :=
  (groups.filter (fun g => g.debit_account)).foldl (fun sum g => sum + g.subtotal) 0

/-- `totalLiabilitiesEquity`: sum of subtotals of credit-normal groups. -/
def totalLiabilitiesEquity (groups : List AccountTypeGroup) : ℚ :=
  (groups.filter (fun g => !g.debit_account)).foldl (fun sum g => sum + g.subtotal) 0

/-- A row's natural balance folded back to the raw signed convention. -/
def rowSigned (r : BalanceSheetRow) : ℚ :=
  if r.debit_account then r.balance.getD 0 else -(r.balance.getD 0)

/-! ### Claim C2, counterexample -/

/-- Two account types: a balance-sheet asset type and an income type. -/
def c2Types : List AccountType :=
  [⟨"at", "Asset", true, true⟩, ⟨"it", "Income", false, false⟩]

/-- A checking account (asset) and a revenue account (income). -/
def c2Accounts : List Account :=
  [⟨"checking", "Checking", "at"⟩, ⟨"sales", "Sales Revenue", "it"⟩]

/-- One individually balanced transaction: debit Checking 100, credit
    Sales Revenue 100. -/
def c2Ledger : List Txn :=
  [⟨1, [⟨"checking", 100⟩, ⟨"sales", -100⟩]⟩]

/-- Claim C2 as stated is false: on a ledger whose single transaction
    individually balances but posts to an income account, the balance
    sheet shows assets of 100 against liabilities-plus-equity of 0 —
    the identity needs the income/expense side to be absorbed (e.g.
    into retained earnings), which the modelled report does not do. -/
theorem C2_identity_fails_with_income_splits :
    (∀ t ∈ c2Ledger, (t.splits.map (fun s => s.amount)).sum = 0) ∧
    totalAssets (groupRows (balanceSheetRows c2Types c2Accounts c2Ledger 1)) = 100 ∧
    totalLiabilitiesEquity (groupRows (balanceSheetRows c2Types c2Accounts c2Ledger 1)) = 0 ∧
    totalAssets (groupRows (balanceSheetRows c2Types c2Accounts c2Ledger 1)) ≠
      totalLiabilitiesEquity (groupRows (balanceSheetRows c2Types c2Accounts c2Ledger 1)) := by
  decide

/-! ### Claim C2, amended -/

theorem sum_map_add {α : Type} (f g : α → ℚ) (l : List α) :
    (l.map (fun x => f x + g x)).sum = (l.map f).sum + (l.map g).sum := by
  induction l with
  | nil => simp
  | cons x xs ih => simp [ih]; ring

theorem sum_map_zero {α : Type} (l : List α) :
    (l.map (fun _ => (0 : ℚ))).sum = 0 := by
  induction l with
  | nil => simp
  | cons x xs ih => simp [ih]

theorem sum_map_swap {α β : Type} (A : List α) (T : List β) (F : α → β → ℚ) :
    (A.map (fun a => (T.map (F a)).sum)).sum =
      (T.map (fun t => (A.map (fun a => F a t)).sum)).sum := by
  induction A with
  | nil => simp [sum_map_zero]
  | cons a as ih =>
      simp only [List.map_cons, List.sum_cons, ih]
      rw [← sum_map_add (fun t => F a t) (fun t => (as.map (fun x => F x t)).sum) T]

theorem totalAssets_eq (gs : List AccountTypeGroup) :
    totalAssets gs =
      ((gs.filter (fun g => g.debit_account)).map (fun g => g.subtotal)).sum := by
  simpa [totalAssets] using
    foldl_add_eq_sum (fun g : AccountTypeGroup => g.subtotal)
      (gs.filter (fun g => g.debit_account)) 0

theorem totalLiabilitiesEquity_eq (gs : List AccountTypeGroup) :
    totalLiabilitiesEquity gs =
      ((gs.filter (fun g => !g.debit_account)).map (fun g => g.subtotal)).sum := by
  simpa [totalLiabilitiesEquity] using
    foldl_add_eq_sum (fun g : AccountTypeGroup => g.subtotal)
      (gs.filter (fun g => !g.debit_account)) 0

theorem totalAssets_cons (g : AccountTypeGroup) (gs : List AccountTypeGroup) :
    totalAssets (g :: gs) =
      (if g.debit_account then g.subtotal else 0) + totalAssets gs := by
  rw [totalAssets_eq, totalAssets_eq]
  by_cases h : g.debit_account
  · simp [List.filter_cons, h]
  · simp [List.filter_cons, h]

theorem totalLiabilitiesEquity_cons (g : AccountTypeGroup) (gs : List AccountTypeGroup) :
    totalLiabilitiesEquity (g :: gs) =
      (if g.debit_account then 0 else g.subtotal) + totalLiabilitiesEquity gs := by
  rw [totalLiabilitiesEquity_eq, totalLiabilitiesEquity_eq]
  by_cases h : g.debit_account
  · simp [List.filter_cons, h]
  · simp [List.filter_cons, h]

theorem diff_insertRow (gs : List AccountTypeGroup) (r : BalanceSheetRow)
    (hco : ∀ g ∈ gs, g.atype_id = r.atype_id → g.debit_account = r.debit_account) :
    totalAssets (insertRow gs r) - totalLiabilitiesEquity (insertRow gs r) =
      (totalAssets gs - totalLiabilitiesEquity gs) + rowSigned r := by
  induction gs with
  | nil =>
      simp only [insertRow]
      unfold rowSigned
      by_cases h : r.debit_account
      · simp [totalAssets_cons, totalLiabilitiesEquity_cons, totalAssets_eq,
          totalLiabilitiesEquity_eq, h]
      · simp [totalAssets_cons, totalLiabilitiesEquity_cons, totalAssets_eq,
          totalLiabilitiesEquity_eq, h]
  | cons g gs ih =>
      by_cases hkey : g.atype_id = r.atype_id
      · have hflag : g.debit_account = r.debit_account :=
          hco g (List.mem_cons_self g gs) hkey
        have hins : insertRow (g :: gs) r =
            { g with accounts := g.accounts ++ [r],
                     subtotal := g.subtotal + r.balance.getD 0 } :: gs := by
          simp only [insertRow]
          rw [if_pos (by simpa using hkey)]
        rw [hins, totalAssets_cons, totalLiabilitiesEquity_cons,
          totalAssets_cons, totalLiabilitiesEquity_cons]
        unfold rowSigned
        rw [← hflag]
        cases h : g.debit_account
        · simp only [h, Bool.false_eq_true, if_false]
          ring
        · simp only [h, if_true]
          ring
      · have hins : insertRow (g :: gs) r = g :: insertRow gs r := by
          simp only [insertRow]
          rw [if_neg (by simpa using hkey)]
        rw [hins, totalAssets_cons, totalLiabilitiesEquity_cons,
          totalAssets_cons, totalLiabilitiesEquity_cons]
        have hIH := ih (fun g' hg' => hco g' (List.mem_cons_of_mem g hg'))
        linarith [hIH]

theorem mem_insertRow (gs : List AccountTypeGroup) (r : BalanceSheetRow) :
    ∀ g' ∈ insertRow gs r,
      (∃ g ∈ gs, g'.atype_id = g.atype_id ∧ g'.debit_account = g.debit_account) ∨
        (g'.atype_id = r.atype_id ∧ g'.debit_account = r.debit_account) := by
  induction gs with
  | nil =>
      intro g' hg'
      simp only [insertRow] at hg'
      rcases List.mem_singleton.mp hg' with rfl
      exact Or.inr ⟨rfl, rfl⟩
  | cons g gs ih =>
      intro g' hg'
      simp only [insertRow] at hg'
      by_cases hkey : g.atype_id == r.atype_id
      · rw [if_pos hkey] at hg'
        rcases List.mem_cons.mp hg' with rfl | hmem
        · exact Or.inl ⟨g, List.mem_cons_self g gs, rfl, rfl⟩
        · exact Or.inl ⟨g', List.mem_cons_of_mem g hmem, rfl, rfl⟩
      · rw [if_neg hkey] at hg'
        rcases List.mem_cons.mp hg' with rfl | hmem
        · exact Or.inl ⟨g', List.mem_cons_self g' gs, rfl, rfl⟩
        · rcases ih g' hmem with ⟨g0, hg0, he⟩ | he
          · exact Or.inl ⟨g0, List.mem_cons_of_mem g hg0, he⟩
          · exact Or.inr he

theorem diff_foldl_insertRow (rows : List BalanceSheetRow) :
    ∀ gs : List AccountTypeGroup,
      (∀ g ∈ gs, ∀ r ∈ rows, g.atype_id = r.atype_id →
        g.debit_account = r.debit_account) →
      (∀ r1 ∈ rows, ∀ r2 ∈ rows, r1.atype_id = r2.atype_id →
        r1.debit_account = r2.debit_account) →
      totalAssets (rows.foldl insertRow gs) -
          totalLiabilitiesEquity (rows.foldl insertRow gs) =
        (totalAssets gs - totalLiabilitiesEquity gs) + (rows.map rowSigned).sum := by
  induction rows with
  | nil => intro gs _ _; simp
  | cons r rs ih =>
      intro gs hgs hrows
      simp only [List.foldl_cons, List.map_cons, List.sum_cons]
      rw [ih (insertRow gs r) ?_ ?_]
      · rw [diff_insertRow gs r
          (fun g hg he => hgs g hg r (List.mem_cons_self r rs) he)]
        ring
      · intro g' hg' r' hr' he
        rcases mem_insertRow gs r g' hg' with ⟨g0, hg0, hid, hfl⟩ | ⟨hid, hfl⟩
        · rw [hfl]
          exact hgs g0 hg0 r' (List.mem_cons_of_mem r hr') (hid ▸ he)
        · rw [hfl]
          exact hrows r (List.mem_cons_self r rs) r'
            (List.mem_cons_of_mem r hr') (hid ▸ he)
      · intro r1 h1 r2 h2
        exact hrows r1 (List.mem_cons_of_mem r h1) r2 (List.mem_cons_of_mem r h2)

theorem diff_groupRows (rows : List BalanceSheetRow)
    (hrows : ∀ r1 ∈ rows, ∀ r2 ∈ rows, r1.atype_id = r2.atype_id →
      r1.debit_account = r2.debit_account) :
    totalAssets (groupRows rows) - totalLiabilitiesEquity (groupRows rows) =
      (rows.map rowSigned).sum := by
  unfold groupRows
  rw [diff_foldl_insertRow rows [] (by intro g hg; exact absurd hg (by simp)) hrows]
  simp [totalAssets_eq, totalLiabilitiesEquity_eq]

theorem typeOf_congr (types : List AccountType) (a1 a2 : Account)
    (h : a1.type_id = a2.type_id) : typeOf types a1 = typeOf types a2 := by
  unfold typeOf
  rw [h]

theorem mem_balanceSheetRows (types : List AccountType) (accounts : List Account)
    (ledger : List Txn) (d : Int) (r : BalanceSheetRow)
    (h : r ∈ balanceSheetRows types accounts ledger d) :
    ∃ a ∈ accounts, ∃ t, typeOf types a = some t ∧ t.balance_sheet = true ∧
      r.atype_id = a.type_id ∧ r.debit_account = t.debit := by
  unfold balanceSheetRows at h
  rcases List.mem_filterMap.mp h with ⟨a, ha, hf⟩
  unfold rowOf at hf
  cases ht : typeOf types a with
  | none => rw [ht] at hf; exact absurd hf (by simp)
  | some t =>
      rw [ht, Option.some_bind] at hf
      by_cases hbs : t.balance_sheet
      · rw [if_pos hbs] at hf
        have htid : t.id = a.type_id := by
          have := List.find?_some ht
          simpa using this
        have hr := Option.some_inj.mp hf
        refine ⟨a, ha, t, ht, hbs, ?_, ?_⟩
        · rw [← hr]
          exact htid
        · rw [← hr]
      · rw [if_neg hbs] at hf
        exact absurd hf (by simp)

theorem balanceSheetRows_coherent (types : List AccountType)
    (accounts : List Account) (ledger : List Txn) (d : Int) :
    ∀ r1 ∈ balanceSheetRows types accounts ledger d,
      ∀ r2 ∈ balanceSheetRows types accounts ledger d,
        r1.atype_id = r2.atype_id → r1.debit_account = r2.debit_account := by
  intro r1 h1 r2 h2 hid
  rcases mem_balanceSheetRows types accounts ledger d r1 h1 with
    ⟨a1, _, t1, ht1, _, hid1, hfl1⟩
  rcases mem_balanceSheetRows types accounts ledger d r2 h2 with
    ⟨a2, _, t2, ht2, _, hid2, hfl2⟩
  have htid : a1.type_id = a2.type_id := by rw [← hid1, ← hid2, hid]
  have : some t1 = some t2 := by rw [← ht1, ← ht2, typeOf_congr types a1 a2 htid]
  have ht12 : t1 = t2 := Option.some_inj.mp this
  rw [hfl1, hfl2, ht12]

theorem sum_rowSigned_balanceSheetRows (types : List AccountType)
    (accounts : List Account) (ledger : List Txn) (d : Int) :
    ((balanceSheetRows types accounts ledger d).map rowSigned).sum =
      ((accounts.filter (isBS types)).map
        (fun a => rawBalance ledger a.id d)).sum := by
  induction accounts with
  | nil => simp [balanceSheetRows]
  | cons a as ih =>
      simp only [balanceSheetRows] at ih ⊢
      cases ht : typeOf types a with
      | none =>
          have hro : rowOf types ledger d a = none := by simp [rowOf, ht]
          have hbs : isBS types a = false := by simp [isBS, ht]
          simp only [List.filterMap_cons, List.filter_cons, hro, hbs,
            Bool.false_eq_true, if_false]
          exact ih
      | some t =>
          by_cases hbst : t.balance_sheet
          · have hro : rowOf types ledger d a = some
                { atype_id := t.id, atype_name := t.atype_name,
                  debit_account := t.debit, id := a.id, acc_name := a.acc_name,
                  balance := some ((if t.debit then 1 else -1) *
                    rawBalance ledger a.id d) } := by
              simp [rowOf, ht, hbst]
            have hbs : isBS types a = true := by simp [isBS, ht, hbst]
            simp only [List.filterMap_cons, List.filter_cons, hro, hbs, if_true,
              List.map_cons, List.sum_cons]
            rw [ih]
            congr 1
            unfold rowSigned
            cases hdc : t.debit
            · simp [hdc]
            · simp [hdc]
          · have hro : rowOf types ledger d a = none := by simp [rowOf, ht, hbst]
            have hbs : isBS types a = false := by simp [isBS, ht, hbst]
            simp only [List.filterMap_cons, List.filter_cons, hro, hbs,
              Bool.false_eq_true, if_false]
            exact ih

theorem sum_indicator_zero (A : List Account) (x : String) (v : ℚ)
    (hx : x ∉ A.map (fun a => a.id)) :
    (A.map (fun a => if x == a.id then v else 0)).sum = 0 := by
  induction A with
  | nil => simp
  | cons a as ih =>
      have hne : ¬x = a.id := fun he => hx (by simp [he])
      have hx' : x ∉ as.map (fun a => a.id) := fun hm => hx (by simp [hm])
      simp only [List.map_cons, List.sum_cons]
      rw [if_neg (by simpa using hne), ih hx', add_zero]

theorem sum_indicator (A : List Account) (x : String) (v : ℚ)
    (hnd : (A.map (fun a => a.id)).Nodup) (hx : x ∈ A.map (fun a => a.id)) :
    (A.map (fun a => if x == a.id then v else 0)).sum = v := by
  induction A with
  | nil => exact absurd hx (by simp)
  | cons a as ih =>
      simp only [List.map_cons, List.sum_cons] at hx ⊢
      simp only [List.map_cons, List.nodup_cons] at hnd
      by_cases he : x = a.id
      · rw [if_pos (by simpa using he)]
        have hxa : x ∉ as.map (fun a => a.id) := by rw [he]; exact hnd.1
        rw [sum_indicator_zero as x v hxa, add_zero]
      · rw [if_neg (by simpa using he)]
        have hx' : x ∈ as.map (fun a => a.id) := by
          rcases List.mem_cons.mp hx with h | h
          · exact absurd h he
          · exact h
        rw [ih hnd.2 hx', zero_add]

theorem sum_txnAccountSum (A : List Account) (ss : List TxnSplit)
    (hnd : (A.map (fun a => a.id)).Nodup)
    (hmem : ∀ s ∈ ss, s.account_id ∈ A.map (fun a => a.id)) :
    (A.map (fun a =>
      ((ss.filter (fun s => s.account_id == a.id)).map (fun s => s.amount)).sum)).sum =
      (ss.map (fun s => s.amount)).sum := by
  induction ss with
  | nil => simp [sum_map_zero]
  | cons s ss ih =>
      have hpoint : ∀ a : Account,
          (((s :: ss).filter (fun s => s.account_id == a.id)).map
            (fun s => s.amount)).sum =
          (if s.account_id == a.id then s.amount else 0) +
            ((ss.filter (fun s => s.account_id == a.id)).map
              (fun s => s.amount)).sum := by
        intro a
        rw [List.filter_cons]
        by_cases h : s.account_id == a.id
        · rw [if_pos h, if_pos h, List.map_cons, List.sum_cons]
        · rw [if_neg h, if_neg h, zero_add]
      calc (A.map (fun a =>
              (((s :: ss).filter (fun x => x.account_id == a.id)).map
                (fun x => x.amount)).sum)).sum
          = (A.map (fun a =>
              (if s.account_id == a.id then s.amount else 0) +
                ((ss.filter (fun x => x.account_id == a.id)).map
                  (fun x => x.amount)).sum)).sum := by
            congr 1
            exact List.map_congr_left (fun a _ => hpoint a)
        _ = (A.map (fun a => if s.account_id == a.id then s.amount else 0)).sum +
              (A.map (fun a =>
                ((ss.filter (fun x => x.account_id == a.id)).map
                  (fun x => x.amount)).sum)).sum := by
            exact sum_map_add _ _ A
        _ = s.amount + (ss.map (fun x => x.amount)).sum := by
            rw [sum_indicator A s.account_id s.amount hnd
              (hmem s (List.mem_cons_self s ss)),
              ih (fun x hx => hmem x (List.mem_cons_of_mem s hx))]
        _ = ((s :: ss).map (fun x => x.amount)).sum := by
            rw [List.map_cons, List.sum_cons]

theorem sum_rawBalance_zero (ledger : List Txn) (A : List Account) (d : Int)
    (hnd : (A.map (fun a => a.id)).Nodup)
    (hmem : ∀ t ∈ ledger, ∀ s ∈ t.splits, s.account_id ∈ A.map (fun a => a.id))
    (hbal : ∀ t ∈ ledger, (t.splits.map (fun s => s.amount)).sum = 0) :
    (A.map (fun a => rawBalance ledger a.id d)).sum = 0 := by
  unfold rawBalance
  rw [sum_map_swap A ledger
    (fun a t => if t.trandate ≤ d then txnAccountSum t a.id else 0)]
  have hinner : ∀ t ∈ ledger,
      (A.map (fun a => if t.trandate ≤ d then txnAccountSum t a.id else 0)).sum = 0 := by
    intro t ht
    by_cases hd : t.trandate ≤ d
    · have : (A.map (fun a => if t.trandate ≤ d then txnAccountSum t a.id else 0)) =
          A.map (fun a => txnAccountSum t a.id) :=
        List.map_congr_left (fun a _ => if_pos hd)
      rw [this]
      unfold txnAccountSum
      rw [sum_txnAccountSum A t.splits hnd (hmem t ht), hbal t ht]
    · have : (A.map (fun a => if t.trandate ≤ d then txnAccountSum t a.id else 0)) =
          A.map (fun _ => (0 : ℚ)) :=
        List.map_congr_left (fun a _ => if_neg hd)
      rw [this, sum_map_zero]
  calc (ledger.map (fun t =>
          (A.map (fun a => if t.trandate ≤ d then txnAccountSum t a.id else 0)).sum)).sum
      = (ledger.map (fun _ => (0 : ℚ))).sum := by
        congr 1
        exact List.map_congr_left hinner
    _ = 0 := sum_map_zero ledger

/-- Claim C2 (amended): the balance-sheet identity
    `totalAssets = totalLiabilitiesEquity` holds at a date when every
    transaction individually balances exactly **and** every split
    posts to an account of a balance-sheet type (so no net income sits
    outside the report); account ids are unique.  Without the second
    condition the identity fails, as the counterexample shows. -/
theorem C2_identity_on_balance_sheet_ledger (types : List AccountType)
    (accounts : List Account) (ledger : List Txn) (d : Int)
    (hnd : (accounts.map (fun a => a.id)).Nodup)
    (hbal : ∀ t ∈ ledger, (t.splits.map (fun s => s.amount)).sum = 0)
    (hmem : ∀ t ∈ ledger, ∀ s ∈ t.splits,
      s.account_id ∈ (accounts.filter (isBS types)).map (fun a => a.id)) :
    totalAssets (groupRows (balanceSheetRows types accounts ledger d)) =
      totalLiabilitiesEquity (groupRows (balanceSheetRows types accounts ledger d)) := by
  have hnd' : ((accounts.filter (isBS types)).map (fun a => a.id)).Nodup :=
    ((List.filter_sublist accounts).map (fun a => a.id)).nodup hnd
  have hdiff := diff_groupRows (balanceSheetRows types accounts ledger d)
    (balanceSheetRows_coherent types accounts ledger d)
  rw [sum_rowSigned_balanceSheetRows types accounts ledger d] at hdiff
  have hzero : (((accounts.filter (isBS types))).map
      (fun a => rawBalance ledger a.id d)).sum = 0 :=
    sum_rawBalance_zero ledger (accounts.filter (isBS types)) d hnd' hmem hbal
  rw [hzero] at hdiff
  linarith [hdiff]

/-- A two-account, pure balance-sheet ledger for the C2 witness. -/
def c2wTypes : List AccountType :=
  [⟨"at", "Asset", true, true⟩, ⟨"lt", "Liability", true, false⟩]

/-- The accounts of the C2 witness ledger. -/
def c2wAccounts : List Account :=
  [⟨"checking", "Checking", "at"⟩, ⟨"loan", "Loan Payable", "lt"⟩]

/-- One balanced transaction: debit Checking 100, credit Loan 100. -/
def c2wLedger : List Txn :=
  [⟨1, [⟨"checking", 100⟩, ⟨"loan", -100⟩]⟩]

/-- Witness for C2 (amended): on a balanced ledger posting only to
    balance-sheet accounts, assets equal liabilities plus equity. -/
theorem C2_identity_on_balance_sheet_ledger_witness :
    totalAssets (groupRows (balanceSheetRows c2wTypes c2wAccounts c2wLedger 1)) =
      totalLiabilitiesEquity
        (groupRows (balanceSheetRows c2wTypes c2wAccounts c2wLedger 1)) :=
  C2_identity_on_balance_sheet_ledger c2wTypes c2wAccounts c2wLedger 1
    (by decide) (by decide) (by decide)

/-! ### Claim C7 -/

/-- Modelled from the spec: the net activity of one account from splits
    posted strictly within a period `(lo, hi]`. -/
def periodActivity (ledger : List Txn) (aid : String) (lo hi : Int) : ℚ :=
  (ledger.map (fun t =>
    if lo < t.trandate ∧ t.trandate ≤ hi then txnAccountSum t aid else 0)).sum

/-- Modelled from the spec: the multi-period report's per-account
    balances — the cumulative balance at each successive period
    boundary (a single cumulative pass; the running balance is carried
    across boundaries). -/
def multiPeriodBalances (ledger : List Txn) (aid : String)
    (bounds : List Int) : List ℚ :=
  bounds.map (fun b => rawBalance ledger aid b)

theorem rawBalance_decompose (ledger : List Txn) (aid : String) (d1 d2 : Int)
    (h : d1 ≤ d2) :
    rawBalance ledger aid d2 =
      rawBalance ledger aid d1 + periodActivity ledger aid d1 d2 := by
  unfold rawBalance periodActivity
  induction ledger with
  | nil => simp
  | cons t ts ih =>
      simp only [List.map_cons, List.sum_cons]
      have hterm : (if t.trandate ≤ d2 then txnAccountSum t aid else 0) =
          (if t.trandate ≤ d1 then txnAccountSum t aid else 0) +
            (if d1 < t.trandate ∧ t.trandate ≤ d2 then txnAccountSum t aid else 0) := by
        by_cases h1 : t.trandate ≤ d1
        · rw [if_pos h1, if_pos (le_trans h1 h),
            if_neg (fun hc => absurd h1 (not_le.mpr hc.1))]
          ring
        · by_cases h2 : t.trandate ≤ d2
          · rw [if_neg h1, if_pos h2, if_pos ⟨not_le.mp h1, h2⟩]
            ring
          · rw [if_neg h1, if_neg h2, if_neg (fun hc => h2 hc.2)]
            ring
      rw [hterm, ih]
      ring

theorem getD_map_bound (l : List Int) (f : Int → ℚ) (j : Nat)
    (hj : j < l.length) :
    (l.map f).getD j 0 = f (l.getD j 0) := by
  induction l generalizing j with
  | nil => exact absurd hj (by simp)
  | cons x xs ih =>
      cases j with
      | zero => rw [List.map_cons, List.getD_cons_zero, List.getD_cons_zero]
      | succ n =>
          rw [List.map_cons, List.getD_cons_succ, List.getD_cons_succ,
            ih n (by simpa using hj)]

/-- Claim C7: in the multi-period balance sheet, the balance reported
    for an account at period boundary i equals the balance at boundary
    i−1 plus the sum of that account's splits posted strictly within
    period i — the cumulative-pass property. -/
theorem C7_multi_period_cumulative (ledger : List Txn) (aid : String)
    (bounds : List Int) (i : Nat) (h0 : 0 < i) (hi : i < bounds.length)
    (hmono : bounds.getD (i - 1) 0 ≤ bounds.getD i 0) :
    (multiPeriodBalances ledger aid bounds).getD i 0 =
      (multiPeriodBalances ledger aid bounds).getD (i - 1) 0 +
        periodActivity ledger aid (bounds.getD (i - 1) 0) (bounds.getD i 0) := by
  have hi' : i - 1 < bounds.length := lt_of_le_of_lt (Nat.sub_le i 1) hi
  unfold multiPeriodBalances
  rw [getD_map_bound bounds _ i hi, getD_map_bound bounds _ (i - 1) hi']
  exact rawBalance_decompose ledger aid _ _ hmono

/-- A ledger with activity in two successive months for the C7 witness. -/
def c7Ledger : List Txn :=
  [⟨15, [⟨"checking", 100⟩, ⟨"loan", -100⟩]⟩,
   ⟨45, [⟨"checking", 50⟩, ⟨"loan", -50⟩]⟩]

/-- Witness for C7: with boundaries at days 31 and 59, the checking
    balance at the second boundary is the first-boundary balance plus
    the activity strictly inside the second period. -/
theorem C7_multi_period_cumulative_witness :
    (multiPeriodBalances c7Ledger "checking" [31, 59]).getD 1 0 =
      (multiPeriodBalances c7Ledger "checking" [31, 59]).getD 0 0 +
        periodActivity c7Ledger "checking"
          (([31, 59] : List Int).getD 0 0) (([31, 59] : List Int).getD 1 0) :=
  C7_multi_period_cumulative c7Ledger "checking" [31, 59] 1
    (by decide) (by decide) (by decide)

end LedgerSpec
